import Mathlib

/-!
Shallow embedding of the `pi-gpio-latency-meter` repository
(`src/latency_meter.py`, `src/sim_backend.py`) and proofs about it.

Conventions.  Python machine integers are unbounded, so they are modelled
by `ℤ`/`ℕ` directly.  Python floats are modelled by `ℚ` where the source
only performs field arithmetic, and by `ℝ` where the source calls
`math.log` / `math.sqrt` / `math.exp`.  Fallible or optional values are
modelled with `Option`.  Each definition carries a note naming the source
function it embeds.
-/

namespace LatencyMeter

/-! ## Statistics engine (`latency_meter.compute_full_stats`) -/

/-- One raw latency entry as received by `compute_full_stats`.  The source
filters entries that are `None`, NaN, or negative, so an entry is either
absent (`None`), NaN (a float NaN reaching the filter), or an integer
nanosecond value. -/
inductive DtEntry where
  | absent : DtEntry
  | nan : DtEntry
  | val : ℤ → DtEntry
deriving DecidableEq

/-- The validity filter of `compute_full_stats` (line 217 of
`latency_meter.py`): `dt is not None and not np.isnan(dt) and dt >= 0`. -/
def isValidEntry : DtEntry → Bool
  | DtEntry.val i => decide (0 ≤ i)
  | _ => false

/-- The integer value stored in a valid entry (the value `dt` itself in
the source; the default `0` is never reached on filtered lists). -/
def entryVal : DtEntry → ℤ
  | DtEntry.val i => i
  | _ => 0

/-- `valid_dts = [dt for dt in dts_ns if dt is not None and not np.isnan(dt) and dt >= 0]`. -/
def validDts (l : List DtEntry) : List ℤ :=
  (l.filter isValidEntry).map entryVal

/-- The sorted copy of the data that `np.percentile` works on. -/
def sortedData (l : List ℤ) : List ℤ :=
  List.insertionSort (· ≤ ·) l

/-- The `i`-th order statistic of a sorted list, as a rational (numpy
indexes the sorted array; out-of-range default is never reached in the
proofs below). -/
def nthQ (s : List ℤ) (i : ℕ) : ℚ :=
  ((s.getD i 0 : ℤ) : ℚ)

/-- Linear interpolation at virtual index `v` into the sorted list `s`:
numpy's default (linear) percentile method evaluates
`a[⌊v⌋] + (v − ⌊v⌋) · (a[min(⌊v⌋+1, n−1)] − a[⌊v⌋])`. -/
def interpAt (s : List ℤ) (v : ℚ) : ℚ :=
  let f := (⌊v⌋).toNat
  nthQ s f + (v - (f : ℚ)) * (nthQ s (min (f + 1) (s.length - 1)) - nthQ s f)

/-- `np.percentile(arr, q)` with the default linear-interpolation method:
virtual index `v = (n−1)·q/100` into the sorted copy of the data. -/
def percentile (l : List ℤ) (q : ℚ) : ℚ :=
  let s := sortedData l
  interpAt s (((s.length : ℚ) - 1) * q / 100)

/-- `np.max` over a nonempty integer list (`arr.max()` in the source). -/
def maxOf (l : List ℤ) : ℤ :=
  l.foldl max (l.headD 0)

/-- `np.min` over a nonempty integer list (`arr.min()` in the source). -/
def minOf (l : List ℤ) : ℤ :=
  l.foldl min (l.headD 0)

/-- `arr.mean()`: the sum divided by the length, as an exact rational. -/
def meanOf (l : List ℤ) : ℚ :=
  (l.sum : ℚ) / (l.length : ℚ)

/-- The population variance `arr.std() ** 2`: numpy's `std` is the square
root of the mean squared deviation.  The square root of a rational is
irrational in general, so the result object stores the variance; the
source's `std_ns` is zero exactly when this field is zero. -/
def varOf (l : List ℤ) : ℚ :=
  ((l.map (fun x => ((x : ℚ) - meanOf l) ^ 2)).sum) / (l.length : ℚ)

/-- `LatencyResult` (the dataclass in `latency_meter.py`).  Counts are
Python ints (`ℤ`); percentile/mean fields are floats modelled exactly in
`ℚ`; `std_sq_ns` holds the square of the source's `std_ns` (see `varOf`). -/
structure LatencyResult where
  total_samples : ℤ
  successful_samples : ℤ
  missed_samples : ℤ
  p50_ns : ℚ
  p95_ns : ℚ
  p99_ns : ℚ
  max_ns : ℤ
  min_ns : ℤ
  mean_ns : ℚ
  std_sq_ns : ℚ
deriving DecidableEq

/-- `compute_full_stats` (`latency_meter.py`, lines 214–243). -/
def compute_full_stats (dts_ns : List DtEntry) : LatencyResult :=
  let total : ℤ := dts_ns.length
  let valid := validDts dts_ns
  let successful : ℤ := valid.length
  let missed : ℤ := total - successful
  if valid = [] then
    { total_samples := total, successful_samples := 0, missed_samples := missed
      p50_ns := 0, p95_ns := 0, p99_ns := 0
      max_ns := 0, min_ns := 0, mean_ns := 0, std_sq_ns := 0 }
  else
    { total_samples := total, successful_samples := successful, missed_samples := missed
      p50_ns := percentile valid 50
      p95_ns := percentile valid 95
      p99_ns := percentile valid 99
      max_ns := maxOf valid
      min_ns := minOf valid
      mean_ns := meanOf valid
      std_sq_ns := varOf valid }

/-! ## Samples and the process exit contract (`latency_meter.main`) -/

/-- A terminal sample `(ts_send, ts_edge, dt_ns)` as appended to `samples`
in `main`: `ts_edge`/`dt` are `None` for a miss. -/
structure Sample where
  ts_send : ℤ
  ts_edge : Option ℤ
  dt : Option ℤ
deriving DecidableEq

/-- `dts = [dt for (_, _, dt) in samples if dt is not None]` (line 497):
the raw integer deltas handed to `compute_full_stats`. -/
def collectedDts (samples : List Sample) : List DtEntry :=
  samples.filterMap (fun s => s.dt.map DtEntry.val)

/-- The process exit status of `main` as a function of the collected
sample list: `sys.exit(2)` when `samples` is empty (line 493–495),
otherwise `return 0 if stats.successful_samples > 0 else 1` (line 524),
which `sys.exit(main())` turns into the process status. -/
def mainExitStatus (samples : List Sample) : ℕ :=
  if samples = [] then 2
  else if 0 < (compute_full_stats (collectedDts samples)).successful_samples then 0
  else 1

/-! ## Pairing engine (`latency_meter.main`, lines 399–483)

The engine's working state: the append-only `samples` list and the two
pending dictionaries `send_buffer` / `edge_buffer`.  Python dicts (3.7+)
preserve insertion order, so they are modelled as association lists with
in-place update. -/

/-- Dictionary lookup `d[k]` / `k in d`. -/
def lookupA (l : List (ℕ × ℤ)) (k : ℕ) : Option ℤ :=
  (l.find? (fun p => p.1 == k)).map (fun p => p.2)

/-- Dictionary removal `d.pop(k)`. -/
def eraseA (l : List (ℕ × ℤ)) (k : ℕ) : List (ℕ × ℤ) :=
  l.filter (fun p => p.1 != k)

/-- Dictionary assignment `d[k] = v`: updates in place when the key is
present (keeping its position), otherwise appends. -/
def insertA (l : List (ℕ × ℤ)) (k : ℕ) (v : ℤ) : List (ℕ × ℤ) :=
  if (l.find? (fun p => p.1 == k)).isSome then
    l.map (fun p => if p.1 == k then (k, v) else p)
  else
    l ++ [(k, v)]

/-- The pairing engine's mutable state in `main`. -/
structure PairState where
  samples : List Sample
  sendBuf : List (ℕ × ℤ)
  edgeBuf : List (ℕ × ℤ)
deriving DecidableEq

/-- Main-loop send branch (lines 414–425): store the send in
`send_buffer`, then if a matching edge is buffered, pop the edge and
append a hit sample.  Note the matched send is NOT removed from
`send_buffer` in the source. -/
def processSend (st : PairState) (seq : ℕ) (ts_send : ℤ) : PairState :=
  let sb := insertA st.sendBuf seq ts_send
  match lookupA st.edgeBuf seq with
  | some ts_edge =>
      { samples := st.samples ++ [⟨ts_send, some ts_edge, some (ts_edge - ts_send)⟩]
        sendBuf := sb
        edgeBuf := eraseA st.edgeBuf seq }
  | none => { st with sendBuf := sb }

/-- Main-loop edge branch (lines 427–439): if a matching send is
buffered, pop it and append a hit sample, otherwise buffer the edge. -/
def processEdge (st : PairState) (seq : ℕ) (ts_edge : ℤ) : PairState :=
  match lookupA st.sendBuf seq with
  | some ts_send =>
      { samples := st.samples ++ [⟨ts_send, some ts_edge, some (ts_edge - ts_send)⟩]
        sendBuf := eraseA st.sendBuf seq
        edgeBuf := st.edgeBuf }
  | none => { st with edgeBuf := insertA st.edgeBuf seq ts_edge }

/-- The periodic cleanup (lines 441–446): when `len(samples) % 1000 == 0`
both buffers drop every entry whose key is not strictly greater than
`seq_counter − 10000`. -/
def cleanupOld (st : PairState) (curSeq : ℤ) : PairState :=
  { st with
    sendBuf := st.sendBuf.filter (fun p => decide (curSeq - 10000 < (p.1 : ℤ)))
    edgeBuf := st.edgeBuf.filter (fun p => decide (curSeq - 10000 < (p.1 : ℤ))) }

/-- One iteration of the main pairing loop: at most one send dequeued
(blocking get with timeout), then at most one edge (non-blocking get),
then the conditional cleanup.  `curSeq` is the value of the shared
`seq_counter` read by the cleanup. -/
structure MainIter where
  send : Option (ℕ × ℤ)
  edge : Option (ℕ × ℤ)
  curSeq : ℤ

/-- Executes one `MainIter`. -/
def mainIter (st : PairState) (it : MainIter) : PairState :=
  let st1 := match it.send with
    | some sv => processSend st sv.1 sv.2
    | none => st
  let st2 := match it.edge with
    | some ev => processEdge st1 ev.1 ev.2
    | none => st1
  if st2.samples.length % 1000 = 0 then cleanupOld st2 it.curSeq else st2

/-- One iteration of the final drain loop (lines 457–479): a drained send
is only stored in `send_buffer` (no match attempt); a drained edge is
matched against `send_buffer` or silently discarded. -/
def finalIter (st : PairState) (it : Option (ℕ × ℤ) × Option (ℕ × ℤ)) : PairState :=
  let st1 := match it.1 with
    | some sv => { st with sendBuf := insertA st.sendBuf sv.1 sv.2 }
    | none => st
  match it.2 with
  | some ev =>
      match lookupA st1.sendBuf ev.1 with
      | some ts_send =>
          { st1 with
            samples := st1.samples ++ [⟨ts_send, some ev.2, some (ev.2 - ts_send)⟩]
            sendBuf := eraseA st1.sendBuf ev.1 }
      | none => st1
  | none => st1

/-- The whole pairing engine run: the main loop over its iterations, the
final drain pass, then the miss-conversion step (lines 481–483) that
turns every still-pending send into a miss sample. -/
def runEngine (main : List MainIter) (drain : List (Option (ℕ × ℤ) × Option (ℕ × ℤ))) :
    List Sample :=
  let st0 : PairState := ⟨[], [], []⟩
  let st1 := main.foldl mainIter st0
  let st2 := drain.foldl finalIter st1
  st2.samples ++ st2.sendBuf.map (fun p => ⟨p.2, none, none⟩)

/-! ## Pulse generator cycle (`latency_meter.main`, `toggler`, lines 314–368)

A single toggler cycle is abstracted as the ordered trace of its
externally visible actions: enqueueing the `(seq, ts_send)` SendRecord
and the two output-line commands. -/

/-- Externally visible events of one toggler cycle. -/
inductive Ev where
  | sendRecord : ℕ → Ev
  | setHigh : Ev
  | setLow : Ev
deriving DecidableEq

/-- Is this event the SendRecord enqueue? -/
def isSendRecord : Ev → Bool
  | Ev.sendRecord _ => true
  | _ => false

/-- The event trace of one toggler cycle for sequence `seq`, following the
source's control flow: the record is enqueued first (line 340); on
`queue.Full` the cycle is abandoned before any output command (line
341–343); `set_value(1)` comes next (line 347) and on failure the cycle is
abandoned (line 349–351); `set_value(0)` ends the cycle (line 365). -/
def togglerCycle (seq : ℕ) (queueFull setHighFails setLowFails : Bool) : List Ev :=
  if queueFull then []
  else
    [Ev.sendRecord seq] ++
      (if setHighFails then []
       else [Ev.setHigh] ++ (if setLowFails then [] else [Ev.setLow]))

/-- `a` occurs strictly before `b` in the trace `tr`. -/
def precedes (a b : Ev) (tr : List Ev) : Prop :=
  ∃ i : Fin tr.length, ∃ j : Fin tr.length, i.1 < j.1 ∧ tr.get i = a ∧ tr.get j = b

instance (a b : Ev) (tr : List Ev) : Decidable (precedes a b tr) := by
  unfold precedes; infer_instance

/-! ## Simulated output line (`sim_backend.SimOutLine.set_value`) -/

/-- `value = 1 if value else 0` (line 203): Python int truthiness. -/
def normVal (v : ℤ) : ℤ :=
  if v = 0 then 0 else 1

/-- One `set_value` call on the state `(last_value, edges scheduled so
far)`: an edge is scheduled exactly when `last_value == 0 and value == 1`
(lines 205–212). -/
def setValueStep : ℤ × ℕ → ℤ → ℤ × ℕ
  | (last, cnt), v =>
    let nv := normVal v
    if last = 0 ∧ nv = 1 then (nv, cnt + 1) else (nv, cnt)

/-- Folds a whole call sequence from the initial state
(`self._last_value = 0`, no edges scheduled). -/
def runSetValues (vs : List ℤ) : ℤ × ℕ :=
  vs.foldl setValueStep (0, 0)

/-- Number of `schedule_edge_at` invocations over the call sequence. -/
def edgesScheduled (vs : List ℤ) : ℕ :=
  (runSetValues vs).2

/-- Modelled from the spec's wording: the number of `0 → 1` transitions of
the normalized value sequence, with previous value initially `0`.  Used as
the specification side of the refinement statement for the edge-triggered
property. -/
def risingCount : ℤ → List ℤ → ℕ
  | _, [] => 0
  | prev, v :: rest => (if prev = 0 ∧ v = 1 then 1 else 0) + risingCount v rest

/-- The spec-side transition count on the normalized trace. -/
def risingTransitions (vs : List ℤ) : ℕ :=
  risingCount 0 (vs.map normVal)

/-! ## Latency model (`sim_backend._LatencyModel`) -/

/-- The five distribution modes accepted by `_LatencyModel`. -/
inductive Mode where
  | const : Mode
  | uniform : Mode
  | normal : Mode
  | lognormal : Mode
  | heavy : Mode
deriving DecidableEq

/-- The `self.base` field after construction: `max(0, int(base_ns))` in
`__init__`, then overwritten by `1000` inside `_setup_lognormal` when the
clamped base is `<= 0` (lines 40 and 52–53 of `sim_backend.py`). -/
def modelBase (mode : Mode) (base_ns : ℤ) : ℤ :=
  if mode = Mode.lognormal ∧ max 0 base_ns ≤ 0 then 1000 else max 0 base_ns

/-- `target_std = max(self.jitter, self.base * 0.1)` of `_setup_lognormal`
(line 57), a Python float. -/
noncomputable def targetStd (mode : Mode) (base_ns jitter_ns : ℤ) : ℝ :=
  max ((max 0 jitter_ns : ℤ) : ℝ) ((modelBase mode base_ns : ℤ) * 0.1)

/-- The constructed `_LatencyModel`.  The lognormal parameter fields are
only ever read in lognormal mode (in Python they do not exist otherwise);
here they always hold the `_setup_lognormal` formulas.  `heavy_prob` and
`heavy_multiplier` are the `_setup_heavy_tail` constants. -/
structure LatencyModel where
  mode : Mode
  base : ℤ
  jitter : ℤ
  ln_median : ℝ
  ln_mu : ℝ
  ln_sigma : ℝ
  heavy_prob : ℝ
  heavy_multiplier : ℤ

/-- `_LatencyModel.__init__` composed with `_setup_lognormal` /
`_setup_heavy_tail` (lines 38–67): `base` and `jitter` are clamped to
`≥ 0`; in lognormal mode `ln_median = log(target_median)`,
`ln_sigma = sqrt(log(1 + (target_std/target_median)**2))` and
`ln_mu = ln_median - 0.5 * ln_sigma**2`. -/
noncomputable def mkLatencyModel (mode : Mode) (base_ns jitter_ns : ℤ) : LatencyModel :=
  { mode := mode
    base := modelBase mode base_ns
    jitter := max 0 jitter_ns
    ln_median := Real.log ((modelBase mode base_ns : ℤ) : ℝ)
    ln_sigma :=
      Real.sqrt (Real.log (1 +
        (targetStd mode base_ns jitter_ns / ((modelBase mode base_ns : ℤ) : ℝ)) ^ 2))
    ln_mu :=
      Real.log ((modelBase mode base_ns : ℤ) : ℝ) -
        0.5 * Real.sqrt (Real.log (1 +
          (targetStd mode base_ns jitter_ns / ((modelBase mode base_ns : ℤ) : ℝ)) ^ 2)) ^ 2
    heavy_prob := 0.05
    heavy_multiplier := 10 }

/-- Python `int(x)` on a float: truncation toward zero. -/
noncomputable def pyInt (x : ℝ) : ℤ :=
  if 0 ≤ x then ⌊x⌋ else ⌈x⌉

/-- The pseudo-random values one `sample_ns` call may consume, passed as
an oracle: `u` is the `rng.randint(0, jitter)` return value, `g` the
return value of whichever `rng.gauss(...)` call the branch makes, and `r`
the `rng.random()` return value of the heavy branch. -/
structure Draws where
  u : ℤ
  g : ℝ
  r : ℝ

/-- `_LatencyModel.sample_ns` (lines 69–111), branch by branch. -/
noncomputable def sample_ns (m : LatencyModel) (d : Draws) : ℤ :=
  match m.mode with
  | Mode.const => m.base
  | Mode.uniform =>
      if m.jitter = 0 then m.base else m.base + d.u
  | Mode.normal =>
      if m.jitter = 0 then m.base else max 0 (pyInt d.g)
  | Mode.lognormal =>
      max 0 (pyInt (Real.exp d.g))
  | Mode.heavy =>
      let value : ℝ :=
        if d.r < m.heavy_prob then
          if 0 < m.jitter * m.heavy_multiplier then d.g
          else ((m.base * m.heavy_multiplier : ℤ) : ℝ)
        else
          if 0 < m.jitter then d.g else ((m.base : ℤ) : ℝ)
      max 0 (pyInt value)

/-- The closed-form median of a lognormal distribution whose underlying
normal has parameters `(mu, sigma)`. -/
noncomputable def lognormalMedian (mu : ℝ) (_sigma : ℝ) : ℝ :=
  Real.exp mu

/-- The closed-form mean of a lognormal distribution whose underlying
normal has parameters `(mu, sigma)`. -/
noncomputable def lognormalMean (mu sigma : ℝ) : ℝ :=
  Real.exp (mu + sigma ^ 2 / 2)

/-- The closed-form standard deviation of a lognormal distribution whose
underlying normal has parameters `(mu, sigma)`. -/
noncomputable def lognormalSD (mu sigma : ℝ) : ℝ :=
  Real.sqrt (Real.exp (sigma ^ 2) - 1) * lognormalMean mu sigma

/-! ## Helper lemmas shared by several theorems -/

lemma countP_add_countP_not (p : DtEntry → Bool) (l : List DtEntry) :
    l.countP p + l.countP (fun a => !p a) = l.length := by
  induction l with
  | nil => simp
  | cons a l ih => by_cases h : p a <;> simp [List.countP_cons, h] <;> omega

lemma validDts_length (l : List DtEntry) :
    (validDts l).length = l.countP isValidEntry := by
  simp [validDts, List.countP_eq_length_filter]

lemma cfs_total (l : List DtEntry) :
    (compute_full_stats l).total_samples = (l.length : ℤ) := by
  by_cases h : validDts l = [] <;> simp [compute_full_stats, h]

lemma cfs_successful (l : List DtEntry) :
    (compute_full_stats l).successful_samples = ((validDts l).length : ℤ) := by
  by_cases h : validDts l = [] <;> simp [compute_full_stats, h]

lemma cfs_missed (l : List DtEntry) :
    (compute_full_stats l).missed_samples = (l.length : ℤ) - ((validDts l).length : ℤ) := by
  by_cases h : validDts l = [] <;> simp [compute_full_stats, h]

lemma validDts_length_le (l : List DtEntry) : (validDts l).length ≤ l.length := by
  calc (validDts l).length = (l.filter isValidEntry).length := by simp [validDts]
    _ ≤ l.length := List.length_filter_le _ _

/-! ## Claim theorems -/

/-- Claim C9: for every input list, the `LatencyResult` returned by
`compute_full_stats` satisfies `total_samples = successful_samples +
missed_samples`, `total_samples` equals the length of the input list, and
both `successful_samples` and `missed_samples` are non-negative. -/
theorem claim_c9_counts_invariant (l : List DtEntry) :
    (compute_full_stats l).total_samples =
        (compute_full_stats l).successful_samples + (compute_full_stats l).missed_samples ∧
    (compute_full_stats l).total_samples = (l.length : ℤ) ∧
    0 ≤ (compute_full_stats l).successful_samples ∧
    0 ≤ (compute_full_stats l).missed_samples := by
  have hle := validDts_length_le l
  refine ⟨?_, cfs_total l, ?_, ?_⟩
  · rw [cfs_total, cfs_successful, cfs_missed]; ring
  · rw [cfs_successful]; exact_mod_cast Nat.zero_le _
  · rw [cfs_missed]; omega

/-- Claim C4: with `k` invalid entries (absent, NaN, or negative) out of
`n` total, `compute_full_stats` returns `successful_samples = n − k` and
`missed_samples = k`; when the valid subset is empty it returns
`successful_samples = 0`, `missed_samples` equal to the total count, and
every numeric field zero (`std_ns` zero exactly when its square
`std_sq_ns` is zero). -/
theorem claim_c4_invalid_counting (l : List DtEntry) :
    (compute_full_stats l).successful_samples =
        (l.length : ℤ) - (l.countP (fun e => !isValidEntry e) : ℤ) ∧
    (compute_full_stats l).missed_samples = (l.countP (fun e => !isValidEntry e) : ℤ) ∧
    (validDts l = [] →
      (compute_full_stats l).successful_samples = 0 ∧
      (compute_full_stats l).missed_samples = (l.length : ℤ) ∧
      (compute_full_stats l).p50_ns = 0 ∧
      (compute_full_stats l).p95_ns = 0 ∧
      (compute_full_stats l).p99_ns = 0 ∧
      (compute_full_stats l).max_ns = 0 ∧
      (compute_full_stats l).min_ns = 0 ∧
      (compute_full_stats l).mean_ns = 0 ∧
      (compute_full_stats l).std_sq_ns = 0) := by
  have hcount := countP_add_countP_not isValidEntry l
  have hval := validDts_length l
  refine ⟨?_, ?_, fun h => ?_⟩
  · rw [cfs_successful, hval]; omega
  · rw [cfs_missed, hval]; omega
  · refine ⟨?_, ?_, ?_, ?_, ?_, ?_, ?_, ?_, ?_⟩ <;> simp [compute_full_stats, h]

/-- Witness for C4 at the concrete input `[absent, val (−3)]`, whose valid
subset is empty. -/
theorem claim_c4_witness :
    (compute_full_stats [DtEntry.absent, DtEntry.val (-3)]).successful_samples = 0 ∧
    (compute_full_stats [DtEntry.absent, DtEntry.val (-3)]).missed_samples = 2 ∧
    (compute_full_stats [DtEntry.absent, DtEntry.val (-3)]).p50_ns = 0 := by
  have h := claim_c4_invalid_counting [DtEntry.absent, DtEntry.val (-3)]
  have h2 := h.2.2 (by decide)
  exact ⟨h2.1, h2.2.1, h2.2.2.1⟩

/-- Claim C6: the three run outcomes map to three pairwise-distinct exit
statuses: at least one successful sample exits `0`; an empty sample list
exits `2` (the distinct "no data" status); a nonempty sample list whose
samples were all missed exits `1`. -/
theorem claim_c6_exit_contract (samples : List Sample) :
    (samples = [] → mainExitStatus samples = 2) ∧
    (0 < (compute_full_stats (collectedDts samples)).successful_samples →
      mainExitStatus samples = 0) ∧
    (samples ≠ [] →
      (compute_full_stats (collectedDts samples)).successful_samples = 0 →
      mainExitStatus samples = 1) ∧
    ((2 : ℕ) ≠ 0 ∧ (2 : ℕ) ≠ 1 ∧ (0 : ℕ) ≠ 1) := by
  refine ⟨fun h => by simp [mainExitStatus, h], fun h => ?_, fun hne h0 => ?_, by decide⟩
  · have hne : samples ≠ [] := by
      intro he
      subst he
      rw [cfs_successful] at h
      simp [collectedDts, validDts] at h
    simp [mainExitStatus, hne, h]
  · simp [mainExitStatus, hne, h0]

/-- Witness for C6 at the three concrete runs: one hit, no samples at
all, and a single all-missed sample. -/
theorem claim_c6_witness :
    mainExitStatus [] = 2 ∧
    mainExitStatus [⟨0, some 5, some 5⟩] = 0 ∧
    mainExitStatus [⟨0, none, none⟩] = 1 :=
  ⟨(claim_c6_exit_contract []).1 rfl,
   (claim_c6_exit_contract [⟨0, some 5, some 5⟩]).2.1 (by decide),
   (claim_c6_exit_contract [⟨0, none, none⟩]).2.2.1 (by decide) (by decide)⟩

lemma foldl_setValue_count (vs : List ℤ) :
    ∀ (last : ℤ) (cnt : ℕ),
      (vs.foldl setValueStep (last, cnt)).2 = cnt + risingCount last (vs.map normVal) := by
  induction vs with
  | nil => intro last cnt; simp [risingCount]
  | cons v rest ih =>
    intro last cnt
    simp only [List.foldl_cons, List.map_cons, risingCount]
    by_cases h : last = 0 ∧ normVal v = 1
    · simp [setValueStep, h, ih]; omega
    · simp [setValueStep, h, ih]

lemma foldl_setValue_ones (n : ℕ) :
    ∀ cnt : ℕ, (List.replicate n (1 : ℤ)).foldl setValueStep (1, cnt) = (1, cnt) := by
  induction n with
  | zero => intro cnt; simp
  | succ k ih =>
    intro cnt
    have h1 : setValueStep ((1 : ℤ), cnt) 1 = (1, cnt) := by
      simp [setValueStep, normVal]
    simp [List.replicate_succ, h1, ih]

lemma runSetValues_append_one (vs : List ℤ) : (runSetValues (vs ++ [1])).1 = 1 := by
  rw [runSetValues, List.foldl_append]
  rcases vs.foldl setValueStep (0, 0) with ⟨last, cnt⟩
  by_cases h : last = 0 <;> simp [setValueStep, normVal, h]

lemma foldl_setValue_ones_state (n : ℕ) (st : ℤ × ℕ) (h : st.1 = 1) :
    (List.replicate n (1 : ℤ)).foldl setValueStep st = st := by
  obtain ⟨last, cnt⟩ := st
  simp only at h
  subst h
  exact foldl_setValue_ones n cnt

/-- Claim C8: the simulated output line is edge-triggered: over any
`set_value` call sequence the number of `schedule_edge_at` invocations
equals the number of `0 → 1` transitions of the normalized value, and
repeated `set_value(1)` calls without an intervening `set_value(0)`
schedule no additional edge. -/
theorem claim_c8_edge_triggered (vs : List ℤ) :
    edgesScheduled vs = risingTransitions vs ∧
    ∀ n : ℕ, edgesScheduled (vs ++ [1] ++ List.replicate n 1) = edgesScheduled (vs ++ [1]) := by
  constructor
  · simpa [edgesScheduled, runSetValues, risingTransitions] using
      foldl_setValue_count vs 0 0
  · intro n
    have key := List.foldl_append setValueStep ((0 : ℤ), (0 : ℕ)) (vs ++ [1]) (List.replicate n 1)
    rw [edgesScheduled, runSetValues, key,
      show List.foldl setValueStep ((0 : ℤ), (0 : ℕ)) (vs ++ [1]) = runSetValues (vs ++ [1])
        from rfl,
      foldl_setValue_ones_state n _ (runSetValues_append_one vs)]
    rfl

/-- Claim C3 counterexample: in the non-failing toggler cycle the output
line is commanded high only after the SendRecord is created and enqueued,
so the `set_value(1)` call does not precede the record. -/
theorem claim_c3_counterexample :
    ¬ precedes Ev.setHigh (Ev.sendRecord 0) (togglerCycle 0 false false false) := by
  decide

/-- Claim C3 as amended: in every toggler cycle the SendRecord is created
and enqueued immediately BEFORE (not after) the output line is commanded
high — the record is the first event of the cycle, exactly one SendRecord
exists per non-dropped cycle, and whenever the high command occurs the
record precedes it. -/
theorem claim_c3_send_before_high (seq : ℕ) (queueFull setHighFails setLowFails : Bool) :
    (togglerCycle seq queueFull setHighFails setLowFails).countP isSendRecord =
        (if queueFull then 0 else 1) ∧
    (queueFull = false →
      (togglerCycle seq queueFull setHighFails setLowFails).head? =
        some (Ev.sendRecord seq)) ∧
    (Ev.setHigh ∈ togglerCycle seq queueFull setHighFails setLowFails →
      precedes (Ev.sendRecord seq) Ev.setHigh
        (togglerCycle seq queueFull setHighFails setLowFails)) := by
  rcases queueFull <;> rcases setHighFails <;> rcases setLowFails <;>
    refine ⟨by simp [togglerCycle, isSendRecord], by simp [togglerCycle], fun hmem => ?_⟩ <;>
    simp only [togglerCycle, if_true, if_false, List.mem_cons, List.append_nil] at hmem ⊢
  case false.false.false =>
    exact ⟨⟨0, by simp⟩, ⟨1, by simp⟩, by simp, rfl, rfl⟩
  case false.false.true =>
    exact ⟨⟨0, by simp⟩, ⟨1, by simp⟩, by simp, rfl, rfl⟩
  all_goals simp_all

/-- Witness for C3 as amended, at a concrete successful cycle. -/
theorem claim_c3_witness :
    precedes (Ev.sendRecord 7) Ev.setHigh (togglerCycle 7 false false false) ∧
    (togglerCycle 7 false false false).countP isSendRecord = 1 :=
  ⟨(claim_c3_send_before_high 7 false false false).2.2 (by decide),
   (claim_c3_send_before_high 7 false false false).1⟩

/-- Claim C1 failing run, evaluated on the embedded pairing engine: a
single SendRecord `(seq 0, ts 100)` whose EdgeRecord `(seq 0, ts 150)` is
processed by the main loop one iteration earlier yields TWO terminal
samples for sequence 0 — a hit and a spurious miss — because the send
branch of the main loop does not remove the matched send from
`send_buffer` (the edge branch does).  This violates the claimed
exactly-one-terminal-Sample guarantee. -/
theorem claim_c1_duplicate_sample :
    runEngine [⟨none, some (0, 150), 1⟩, ⟨some (0, 100), none, 1⟩] [] =
      [⟨100, some 150, some 50⟩, ⟨100, none, none⟩] ∧
    (runEngine [⟨none, some (0, 150), 1⟩, ⟨some (0, 100), none, 1⟩] []).countP
        (fun s => s.ts_send == 100) = 2 :=
  ⟨by decide, by decide⟩

lemma modelBase_nonneg (mode : Mode) (z : ℤ) : 0 ≤ modelBase mode z := by
  unfold modelBase
  split
  · norm_num
  · exact le_max_left 0 z

lemma modelBase_lognormal_pos (z : ℤ) : 0 < modelBase Mode.lognormal z := by
  unfold modelBase
  split
  · norm_num
  · rename_i h
    simp only [true_and] at h
    exact lt_of_not_le h

lemma targetStd_lognormal_pos (base_ns jitter_ns : ℤ) :
    0 < targetStd Mode.lognormal base_ns jitter_ns := by
  have hb : (0 : ℝ) < ((modelBase Mode.lognormal base_ns : ℤ) : ℝ) := by
    exact_mod_cast modelBase_lognormal_pos base_ns
  have h1 : (0 : ℝ) < ((modelBase Mode.lognormal base_ns : ℤ) : ℝ) * 0.1 := by nlinarith
  unfold targetStd
  exact lt_of_lt_of_le h1 (le_max_right _ _)

/-- The algebra of `_setup_lognormal` over abstract positive targets
`B` (median parameter) and `ts` (standard-deviation target): the stored
`(mu, sigma)` give a lognormal with mean exactly `B`, standard deviation
exactly `ts`, and median strictly below `B`. -/
lemma lognormal_params_core (B ts : ℝ) (hB : 0 < B) (hts : 0 < ts) :
    Real.exp (Real.log B - 0.5 * Real.sqrt (Real.log (1 + (ts / B) ^ 2)) ^ 2 +
        Real.sqrt (Real.log (1 + (ts / B) ^ 2)) ^ 2 / 2) = B ∧
    Real.sqrt (Real.exp (Real.sqrt (Real.log (1 + (ts / B) ^ 2)) ^ 2) - 1) *
        Real.exp (Real.log B - 0.5 * Real.sqrt (Real.log (1 + (ts / B) ^ 2)) ^ 2 +
          Real.sqrt (Real.log (1 + (ts / B) ^ 2)) ^ 2 / 2) = ts ∧
    Real.exp (Real.log B - 0.5 * Real.sqrt (Real.log (1 + (ts / B) ^ 2)) ^ 2) < B := by
  have hx0 : (0 : ℝ) ≤ Real.log (1 + (ts / B) ^ 2) :=
    Real.log_nonneg (by nlinarith [sq_nonneg (ts / B)])
  have hsq : Real.sqrt (Real.log (1 + (ts / B) ^ 2)) ^ 2 = Real.log (1 + (ts / B) ^ 2) :=
    Real.sq_sqrt hx0
  rw [hsq]
  have hmean : Real.exp (Real.log B - 0.5 * Real.log (1 + (ts / B) ^ 2) +
      Real.log (1 + (ts / B) ^ 2) / 2) = B := by
    rw [show Real.log B - 0.5 * Real.log (1 + (ts / B) ^ 2) +
        Real.log (1 + (ts / B) ^ 2) / 2 = Real.log B by ring]
    exact Real.exp_log hB
  refine ⟨hmean, ?_, ?_⟩
  · rw [hmean, Real.exp_log (by positivity)]
    rw [show (1 + (ts / B) ^ 2 - 1 : ℝ) = (ts / B) ^ 2 by ring]
    rw [Real.sqrt_sq (le_of_lt (div_pos hts hB))]
    field_simp
  · have hxpos : 0 < Real.log (1 + (ts / B) ^ 2) :=
      Real.log_pos (by nlinarith [div_pos hts hB])
    calc Real.exp (Real.log B - 0.5 * Real.log (1 + (ts / B) ^ 2))
        = B * Real.exp (-(0.5 * Real.log (1 + (ts / B) ^ 2))) := by
          rw [sub_eq_add_neg, Real.exp_add, Real.exp_log hB]
      _ < B * 1 := by
          refine mul_lt_mul_of_pos_left ?_ hB
          rw [Real.exp_lt_one_iff]
          nlinarith
      _ = B := mul_one B

lemma lognormal_mean_eq (base_ns jitter_ns : ℤ) :
    lognormalMean (mkLatencyModel Mode.lognormal base_ns jitter_ns).ln_mu
        (mkLatencyModel Mode.lognormal base_ns jitter_ns).ln_sigma =
      ((mkLatencyModel Mode.lognormal base_ns jitter_ns).base : ℝ) := by
  have hB : (0 : ℝ) < ((modelBase Mode.lognormal base_ns : ℤ) : ℝ) := by
    exact_mod_cast modelBase_lognormal_pos base_ns
  have h := (lognormal_params_core _ _ hB (targetStd_lognormal_pos base_ns jitter_ns)).1
  simpa [lognormalMean, mkLatencyModel] using h

lemma lognormal_sd_eq (base_ns jitter_ns : ℤ) :
    lognormalSD (mkLatencyModel Mode.lognormal base_ns jitter_ns).ln_mu
        (mkLatencyModel Mode.lognormal base_ns jitter_ns).ln_sigma =
      targetStd Mode.lognormal base_ns jitter_ns := by
  have hB : (0 : ℝ) < ((modelBase Mode.lognormal base_ns : ℤ) : ℝ) := by
    exact_mod_cast modelBase_lognormal_pos base_ns
  have h := (lognormal_params_core _ _ hB (targetStd_lognormal_pos base_ns jitter_ns)).2.1
  simpa [lognormalSD, lognormalMean, mkLatencyModel] using h

lemma lognormal_median_lt (base_ns jitter_ns : ℤ) :
    lognormalMedian (mkLatencyModel Mode.lognormal base_ns jitter_ns).ln_mu
        (mkLatencyModel Mode.lognormal base_ns jitter_ns).ln_sigma <
      ((mkLatencyModel Mode.lognormal base_ns jitter_ns).base : ℝ) := by
  have hB : (0 : ℝ) < ((modelBase Mode.lognormal base_ns : ℤ) : ℝ) := by
    exact_mod_cast modelBase_lognormal_pos base_ns
  have h := (lognormal_params_core _ _ hB (targetStd_lognormal_pos base_ns jitter_ns)).2.2
  simpa [lognormalMedian, mkLatencyModel] using h

/-- Claim C2 counterexample: at the simulator defaults (`base_ns =
400000`, `jitter_ns = 150000`), `exp(ln_mu)` — the median of the
lognormal defined by the stored parameters — is strictly below `base`,
hence not equal to it as the claim states. -/
theorem claim_c2_counterexample :
    (mkLatencyModel Mode.lognormal 400000 150000).base = 400000 ∧
    Real.exp ((mkLatencyModel Mode.lognormal 400000 150000).ln_mu) ≠ (400000 : ℝ) := by
  have hb : (mkLatencyModel Mode.lognormal 400000 150000).base = 400000 := by
    simp [mkLatencyModel]
    decide
  refine ⟨hb, ?_⟩
  have h := lognormal_median_lt 400000 150000
  rw [lognormalMedian, hb] at h
  exact ne_of_lt (by exact_mod_cast h)

/-- Claim C2 as amended: the parameters `(ln_mu, ln_sigma)` computed once
at construction give a lognormal whose MEAN (not median) equals `base`
and whose standard deviation equals `max(jitter, 0.1·base)` exactly; the
median `exp(ln_mu)` of the stored distribution is strictly below `base`,
while the stored `ln_median` field still satisfies
`exp(ln_median) = base`. -/
theorem claim_c2_lognormal_params (base_ns jitter_ns : ℤ) :
    lognormalMean (mkLatencyModel Mode.lognormal base_ns jitter_ns).ln_mu
        (mkLatencyModel Mode.lognormal base_ns jitter_ns).ln_sigma =
      ((mkLatencyModel Mode.lognormal base_ns jitter_ns).base : ℝ) ∧
    lognormalSD (mkLatencyModel Mode.lognormal base_ns jitter_ns).ln_mu
        (mkLatencyModel Mode.lognormal base_ns jitter_ns).ln_sigma =
      max ((mkLatencyModel Mode.lognormal base_ns jitter_ns).jitter : ℝ)
        (((mkLatencyModel Mode.lognormal base_ns jitter_ns).base : ℝ) * 0.1) ∧
    lognormalMedian (mkLatencyModel Mode.lognormal base_ns jitter_ns).ln_mu
        (mkLatencyModel Mode.lognormal base_ns jitter_ns).ln_sigma <
      ((mkLatencyModel Mode.lognormal base_ns jitter_ns).base : ℝ) ∧
    Real.exp (mkLatencyModel Mode.lognormal base_ns jitter_ns).ln_median =
      ((mkLatencyModel Mode.lognormal base_ns jitter_ns).base : ℝ) := by
  have hB : (0 : ℝ) < ((modelBase Mode.lognormal base_ns : ℤ) : ℝ) := by
    exact_mod_cast modelBase_lognormal_pos base_ns
  refine ⟨lognormal_mean_eq base_ns jitter_ns, ?_, lognormal_median_lt base_ns jitter_ns, ?_⟩
  · rw [lognormal_sd_eq base_ns jitter_ns]
    simp [targetStd, mkLatencyModel]
  · simpa [mkLatencyModel] using Real.exp_log hB

/-- Claim C10: constructing a lognormal `_LatencyModel` with `base_ns =
0` silently substitutes `base = 1000` ns before deriving the parameters,
so the stored distribution is centered at 1000 ns (its mean is exactly
1000), not 0. -/
theorem claim_c10_zero_base_substitution (jitter_ns : ℤ) :
    (mkLatencyModel Mode.lognormal 0 jitter_ns).base = 1000 ∧
    lognormalMean (mkLatencyModel Mode.lognormal 0 jitter_ns).ln_mu
        (mkLatencyModel Mode.lognormal 0 jitter_ns).ln_sigma = (1000 : ℝ) := by
  have hbase : (mkLatencyModel Mode.lognormal 0 jitter_ns).base = 1000 := by
    simp [mkLatencyModel]
    decide
  refine ⟨hbase, ?_⟩
  rw [lognormal_mean_eq 0 jitter_ns, hbase]
  norm_num

/-- Claim C7: for every mode, every (arbitrary-sign) base and jitter
argument, and every oracle draw respecting the `randint(0, jitter)`
contract, `sample_ns` returns a non-negative integer. -/
theorem claim_c7_sample_nonneg (mode : Mode) (base_ns jitter_ns : ℤ) (d : Draws)
    (hu0 : 0 ≤ d.u) (hu1 : d.u ≤ (mkLatencyModel mode base_ns jitter_ns).jitter) :
    0 ≤ sample_ns (mkLatencyModel mode base_ns jitter_ns) d := by
  have hbase : 0 ≤ (mkLatencyModel mode base_ns jitter_ns).base := by
    simpa [mkLatencyModel] using modelBase_nonneg mode base_ns
  cases mode
  case const => simpa [sample_ns, mkLatencyModel] using hbase
  case uniform =>
    rw [sample_ns]
    simp only [mkLatencyModel]
    split
    · simpa [mkLatencyModel] using hbase
    · have : 0 ≤ (mkLatencyModel Mode.uniform base_ns jitter_ns).base + d.u :=
        add_nonneg hbase hu0
      simpa [mkLatencyModel] using this
  case normal =>
    rw [sample_ns]
    simp only [mkLatencyModel]
    split
    · simpa [mkLatencyModel] using hbase
    · exact le_max_left 0 _
  case lognormal =>
    rw [sample_ns]
    exact le_max_left 0 _
  case heavy =>
    rw [sample_ns]
    exact le_max_left 0 _

/-- Witness for C7 in uniform mode with a concrete in-range draw. -/
theorem claim_c7_witness : 0 ≤ sample_ns (mkLatencyModel Mode.uniform 5 7) ⟨3, 0, 0⟩ :=
  claim_c7_sample_nonneg Mode.uniform 5 7 ⟨3, 0, 0⟩ (by norm_num)
    (by simp [mkLatencyModel])

lemma getD_mono_of_sorted (s : List ℤ) (hs : List.Sorted (· ≤ ·) s) (i j : ℕ)
    (hij : i ≤ j) (hj : j < s.length) : s.getD i 0 ≤ s.getD j 0 := by
  have hi : i < s.length := lt_of_le_of_lt hij hj
  rw [List.getD_eq_get s 0 hi, List.getD_eq_get s 0 hj]
  exact hs.rel_get_of_le (Fin.mk_le_mk.mpr hij)

lemma getD_mem_of_lt (s : List ℤ) (i : ℕ) (hi : i < s.length) : s.getD i 0 ∈ s := by
  rw [List.getD_eq_get s 0 hi]
  exact List.get_mem s i hi

lemma nthQ_mono_of_sorted (s : List ℤ) (hs : List.Sorted (· ≤ ·) s) (i j : ℕ)
    (hij : i ≤ j) (hj : j < s.length) : nthQ s i ≤ nthQ s j := by
  rw [nthQ, nthQ]
  exact_mod_cast getD_mono_of_sorted s hs i j hij hj

lemma floor_toNat_facts (v : ℚ) (n : ℕ) (h0 : 0 ≤ v) (hv : v ≤ (n : ℚ) - 1) :
    ((⌊v⌋.toNat : ℕ) : ℚ) ≤ v ∧ v < ((⌊v⌋.toNat : ℕ) : ℚ) + 1 ∧ ⌊v⌋.toNat ≤ n - 1 ∧ 1 ≤ n := by
  have hfl0 : 0 ≤ ⌊v⌋ := Int.floor_nonneg.mpr h0
  have hcast : ((⌊v⌋.toNat : ℕ) : ℤ) = ⌊v⌋ := Int.toNat_of_nonneg hfl0
  have hcastq : ((⌊v⌋.toNat : ℕ) : ℚ) = ((⌊v⌋ : ℤ) : ℚ) := by exact_mod_cast hcast
  have hn1 : (1 : ℚ) ≤ (n : ℚ) := by linarith
  have hn : 1 ≤ n := by exact_mod_cast hn1
  have h2 : ⌊v⌋ ≤ (n : ℤ) - 1 := by
    have hc : (((n : ℤ) - 1 : ℤ) : ℚ) = (n : ℚ) - 1 := by push_cast; ring
    calc ⌊v⌋ ≤ ⌊(((n : ℤ) - 1 : ℤ) : ℚ)⌋ := Int.floor_le_floor (by rw [hc]; exact hv)
      _ = (n : ℤ) - 1 := Int.floor_intCast _
  refine ⟨?_, ?_, by omega, hn⟩
  · rw [hcastq]; exact Int.floor_le v
  · rw [hcastq]; exact Int.lt_floor_add_one v

lemma interpAt_bounds (s : List ℤ) (hs : List.Sorted (· ≤ ·) s) (v : ℚ)
    (h0 : 0 ≤ v) (hv : v ≤ (s.length : ℚ) - 1) :
    nthQ s (⌊v⌋).toNat ≤ interpAt s v ∧
    interpAt s v ≤ nthQ s (min ((⌊v⌋).toNat + 1) (s.length - 1)) := by
  obtain ⟨hfle, hflt, hfn, hn⟩ := floor_toNat_facts v s.length h0 hv
  have hmin_lt : min ((⌊v⌋).toNat + 1) (s.length - 1) < s.length := by omega
  have hab : nthQ s (⌊v⌋).toNat ≤ nthQ s (min ((⌊v⌋).toNat + 1) (s.length - 1)) :=
    nthQ_mono_of_sorted s hs _ _ (by omega) hmin_lt
  have h1 : (0 : ℚ) ≤
      nthQ s (min ((⌊v⌋).toNat + 1) (s.length - 1)) - nthQ s (⌊v⌋).toNat :=
    sub_nonneg.mpr hab
  simp only [interpAt]
  constructor
  · nlinarith [mul_nonneg (by linarith : (0 : ℚ) ≤ v - ((⌊v⌋.toNat : ℕ) : ℚ)) h1]
  · nlinarith [mul_le_of_le_one_left h1 (by linarith : v - ((⌊v⌋.toNat : ℕ) : ℚ) ≤ 1)]

lemma interpAt_mono (s : List ℤ) (hs : List.Sorted (· ≤ ·) s) (v w : ℚ)
    (h0 : 0 ≤ v) (hvw : v ≤ w) (hw : w ≤ (s.length : ℚ) - 1) :
    interpAt s v ≤ interpAt s w := by
  have h0w : 0 ≤ w := le_trans h0 hvw
  have hv : v ≤ (s.length : ℚ) - 1 := le_trans hvw hw
  obtain ⟨hfv_le, hfv_lt, hfv_n, hn⟩ := floor_toNat_facts v s.length h0 hv
  obtain ⟨hfw_le, hfw_lt, hfw_n, _⟩ := floor_toNat_facts w s.length h0w hw
  have hf_mono : (⌊v⌋).toNat ≤ (⌊w⌋).toNat :=
    Int.toNat_le_toNat (Int.floor_le_floor hvw)
  rcases eq_or_lt_of_le hf_mono with heq | hlt
  · have hmin_lt : min ((⌊v⌋).toNat + 1) (s.length - 1) < s.length := by omega
    have hab : nthQ s (⌊v⌋).toNat ≤ nthQ s (min ((⌊v⌋).toNat + 1) (s.length - 1)) :=
      nthQ_mono_of_sorted s hs _ _ (by omega) hmin_lt
    simp only [interpAt, ← heq]
    nlinarith [mul_nonneg (sub_nonneg.mpr hvw) (sub_nonneg.mpr hab)]
  · have hub := (interpAt_bounds s hs v h0 hv).2
    have hlb := (interpAt_bounds s hs w h0w hw).1
    have hmid : nthQ s (min ((⌊v⌋).toNat + 1) (s.length - 1)) ≤ nthQ s (⌊w⌋).toNat :=
      nthQ_mono_of_sorted s hs _ _ (by omega) (by omega)
    linarith

lemma sortedData_sorted (L : List ℤ) : List.Sorted (· ≤ ·) (sortedData L) := by
  simpa [sortedData] using List.sorted_insertionSort (· ≤ ·) L

lemma sortedData_length (L : List ℤ) : (sortedData L).length = L.length := by
  simp [sortedData, List.length_insertionSort]

lemma le_foldl_max (l : List ℤ) (a : ℤ) : a ≤ l.foldl max a := by
  induction l generalizing a with
  | nil => simp
  | cons x xs ih => exact le_trans (le_max_left a x) (ih (max a x))

lemma mem_le_foldl_max (l : List ℤ) : ∀ (a x : ℤ), x ∈ l → x ≤ l.foldl max a := by
  induction l with
  | nil => intro a x hx; cases hx
  | cons y ys ih =>
    intro a x hx
    rcases List.mem_cons.mp hx with rfl | hmem
    · exact le_trans (le_max_right a x) (le_foldl_max ys (max a x))
    · exact ih (max a y) x hmem

lemma foldl_min_le (l : List ℤ) (a : ℤ) : l.foldl min a ≤ a := by
  induction l generalizing a with
  | nil => simp
  | cons x xs ih => exact le_trans (ih (min a x)) (min_le_left a x)

lemma foldl_min_le_mem (l : List ℤ) : ∀ (a x : ℤ), x ∈ l → l.foldl min a ≤ x := by
  induction l with
  | nil => intro a x hx; cases hx
  | cons y ys ih =>
    intro a x hx
    rcases List.mem_cons.mp hx with rfl | hmem
    · exact le_trans (foldl_min_le ys (min a x)) (min_le_right a x)
    · exact ih (min a y) x hmem

lemma le_maxOf_of_mem (L : List ℤ) (x : ℤ) (hx : x ∈ L) : x ≤ maxOf L :=
  mem_le_foldl_max L (L.headD 0) x hx

lemma minOf_le_of_mem (L : List ℤ) (x : ℤ) (hx : x ∈ L) : minOf L ≤ x :=
  foldl_min_le_mem L (L.headD 0) x hx

lemma percentile_mono (L : List ℤ) (hL : L ≠ []) (p q : ℚ)
    (h0 : 0 ≤ p) (hpq : p ≤ q) (hq : q ≤ 100) : percentile L p ≤ percentile L q := by
  have hs := sortedData_sorted L
  have hlen : 1 ≤ (sortedData L).length := by
    rw [sortedData_length]; exact List.length_pos.mpr hL
  have hlenq : (1 : ℚ) ≤ ((sortedData L).length : ℚ) := by exact_mod_cast hlen
  have hnn : (0 : ℚ) ≤ ((sortedData L).length : ℚ) - 1 := by linarith
  simp only [percentile]
  refine interpAt_mono _ hs _ _ ?_ ?_ ?_
  · exact div_nonneg (mul_nonneg hnn h0) (by norm_num)
  · rw [div_le_div_iff_of_pos_right (by norm_num : (0 : ℚ) < 100)]
    exact mul_le_mul_of_nonneg_left hpq hnn
  · rw [div_le_iff (by norm_num : (0 : ℚ) < 100)]
    nlinarith [mul_le_mul_of_nonneg_left hq hnn]

lemma percentile_le_maxOf (L : List ℤ) (hL : L ≠ []) (q : ℚ)
    (h0 : 0 ≤ q) (hq : q ≤ 100) : percentile L q ≤ (maxOf L : ℚ) := by
  have hs := sortedData_sorted L
  have hlen : 1 ≤ (sortedData L).length := by
    rw [sortedData_length]; exact List.length_pos.mpr hL
  have hlenq : (1 : ℚ) ≤ ((sortedData L).length : ℚ) := by exact_mod_cast hlen
  have hnn : (0 : ℚ) ≤ ((sortedData L).length : ℚ) - 1 := by linarith
  simp only [percentile]
  set v : ℚ := (((sortedData L).length : ℚ) - 1) * q / 100 with hv_def
  have hv0 : 0 ≤ v := div_nonneg (mul_nonneg hnn h0) (by norm_num)
  have hv1 : v ≤ ((sortedData L).length : ℚ) - 1 := by
    rw [hv_def, div_le_iff (by norm_num : (0 : ℚ) < 100)]
    nlinarith [mul_le_mul_of_nonneg_left hq hnn]
  obtain ⟨_, _, hfn, hn⟩ := floor_toNat_facts v (sortedData L).length hv0 hv1
  have hmin_lt : min ((⌊v⌋).toNat + 1) ((sortedData L).length - 1) < (sortedData L).length := by
    omega
  have hub := (interpAt_bounds _ hs v hv0 hv1).2
  have hmemS := getD_mem_of_lt (sortedData L) _ hmin_lt
  have hmemL :
      (sortedData L).getD (min ((⌊v⌋).toNat + 1) ((sortedData L).length - 1)) 0 ∈ L := by
    rw [sortedData] at hmemS
    exact (List.mem_insertionSort (· ≤ ·)).mp hmemS
  have hle := le_maxOf_of_mem L _ hmemL
  refine le_trans hub ?_
  rw [nthQ]
  exact_mod_cast hle

lemma minOf_le_meanOf (L : List ℤ) (hL : L ≠ []) : (minOf L : ℚ) ≤ meanOf L := by
  have hn : 0 < L.length := List.length_pos.mpr hL
  have hnq : (0 : ℚ) < (L.length : ℚ) := by exact_mod_cast hn
  rw [meanOf, le_div_iff hnq]
  have hsum : L.length • minOf L ≤ L.sum :=
    List.card_nsmul_le_sum L (minOf L) (fun x hx => minOf_le_of_mem L x hx)
  calc (minOf L : ℚ) * (L.length : ℚ) = ((L.length • minOf L : ℤ) : ℚ) := by
        push_cast [nsmul_eq_mul]; ring
    _ ≤ (L.sum : ℚ) := by exact_mod_cast hsum

lemma meanOf_le_maxOf (L : List ℤ) (hL : L ≠ []) : meanOf L ≤ (maxOf L : ℚ) := by
  have hn : 0 < L.length := List.length_pos.mpr hL
  have hnq : (0 : ℚ) < (L.length : ℚ) := by exact_mod_cast hn
  rw [meanOf, div_le_iff hnq]
  have hsum : L.sum ≤ L.length • maxOf L :=
    List.sum_le_card_nsmul L (maxOf L) (fun x hx => le_maxOf_of_mem L x hx)
  calc (L.sum : ℚ) ≤ ((L.length • maxOf L : ℤ) : ℚ) := by exact_mod_cast hsum
    _ = (maxOf L : ℚ) * (L.length : ℚ) := by push_cast [nsmul_eq_mul]; ring

/-- Claim C5: on every input whose valid subset is non-empty, the result
of `compute_full_stats` satisfies `p50 ≤ p95 ≤ p99 ≤ max` and
`min ≤ mean ≤ max`. -/
theorem claim_c5_stat_ordering (l : List DtEntry) (hne : validDts l ≠ []) :
    (compute_full_stats l).p50_ns ≤ (compute_full_stats l).p95_ns ∧
    (compute_full_stats l).p95_ns ≤ (compute_full_stats l).p99_ns ∧
    (compute_full_stats l).p99_ns ≤ ((compute_full_stats l).max_ns : ℚ) ∧
    ((compute_full_stats l).min_ns : ℚ) ≤ (compute_full_stats l).mean_ns ∧
    (compute_full_stats l).mean_ns ≤ ((compute_full_stats l).max_ns : ℚ) := by
  refine ⟨?_, ?_, ?_, ?_, ?_⟩
  · simpa [compute_full_stats, hne] using
      percentile_mono (validDts l) hne 50 95 (by norm_num) (by norm_num) (by norm_num)
  · simpa [compute_full_stats, hne] using
      percentile_mono (validDts l) hne 95 99 (by norm_num) (by norm_num) (by norm_num)
  · simpa [compute_full_stats, hne] using
      percentile_le_maxOf (validDts l) hne 99 (by norm_num) (by norm_num)
  · simpa [compute_full_stats, hne] using minOf_le_meanOf (validDts l) hne
  · simpa [compute_full_stats, hne] using meanOf_le_maxOf (validDts l) hne

/-- Witness for C5 on the concrete valid list `[5, 3]`. -/
theorem claim_c5_witness :
    (compute_full_stats [DtEntry.val 5, DtEntry.val 3]).p50_ns ≤
      (compute_full_stats [DtEntry.val 5, DtEntry.val 3]).p95_ns ∧
    ((compute_full_stats [DtEntry.val 5, DtEntry.val 3]).min_ns : ℚ) ≤
      (compute_full_stats [DtEntry.val 5, DtEntry.val 3]).mean_ns :=
  ⟨(claim_c5_stat_ordering [DtEntry.val 5, DtEntry.val 3] (by decide)).1,
   (claim_c5_stat_ordering [DtEntry.val 5, DtEntry.val 3] (by decide)).2.2.2.1⟩

end LatencyMeter
